import Mathlib

/-!
Verification of the go.commonjs module bundler.

This file gives a shallow embedding of the bundler's core: the `CjsModule` /
`Provider` abstractions, the `App` dependency resolver (`buildDeps`) and
packager (`content`), URL minting (`ModulesURL`), the HTTP bundle server
(`ServeHTTP`), the `jsh` markup layer, and the client loader runtime.
Go byte slices are modelled as `String` (packaging layer, where all data is
text) or as `List Nat` of byte values (HTTP layer, where the code slices at
byte granularity).  Fallible Go calls return `Except Err`.  The recursion of
`buildDeps` is modelled with an explicit fuel argument bounding the nesting
depth of recursive calls; `none` marks fuel exhaustion, so a result of the
form `some r` for every large enough fuel captures termination of the Go
recursion.
-/

/-- Errors. `notFound` models the concrete Go type `errModuleNotFound`
(a distinguishable dynamic type); `generic` models every other error value
(`errors.New`, `fmt.Errorf`, provider / transform / store failures). -/
inductive Err : Type where
  | notFound (name : String)
  | generic (msg : String)
deriving DecidableEq, Repr

/-- Embeds `IsNotFound` (part_001 lines 76-80): a type assertion to
`errModuleNotFound`, true exactly for that dynamic type. -/
def IsNotFound : Err → Bool
  | Err.notFound _ => true
  | Err.generic _ => false

/-- Embeds the `CjsModule` interface: `Name()` is a fixed string, `Content()`
and `Require()` are fallible calls with fixed (deterministic) results, which
is the "fixed provider state" the claims quantify over. -/
structure CjsModule : Type where
  name : String
  content : Except Err String
  require : Except Err (List String)

/-- Embeds the `App` configuration relevant to resolution and packaging
(part_001 lines 289-297): an optional `Transform`, the directly owned
`Modules`, and the fallback `Providers`, each provider being a function
from a name to a module or an error (the `Provider` interface). -/
structure App : Type where
  mountPath : String
  transform : Option (String → Except Err String)
  modules : List CjsModule
  providers : List (String → Except Err CjsModule)

/-- Embeds the provider-chain loop of `App.Module` (part_001 lines 339-349):
the first provider that does not report NotFound wins; a NotFound falls
through to the next provider; exhausting the chain reports NotFound. -/
def findInProviders : List (String → Except Err CjsModule) → String → Except Err CjsModule
  | [], name => Except.error (Err.notFound name)
  | p :: rest, name =>
    match p name with
    | Except.ok m => Except.ok m
    | Except.error e => if IsNotFound e then findInProviders rest name else Except.error e

/-- Embeds `App.Module` (part_001 lines 332-350): scan the owned modules for
an exact name match first, then walk the fallback providers. -/
def App.Module (a : App) (name : String) : Except Err CjsModule :=
  match a.modules.find? (fun m => m.name == name) with
  | some m => Except.ok m
  | none => findInProviders a.providers name

/-- Embeds the loop body of `App.buildDeps` (part_001 lines 422-439) over the
`require` list.  The visited set (a Go `map[string]bool`) is an explicit list
in insertion order; the result pairs the final visited set with the returned
error (the set mutations performed before an error are kept, as in Go).
`recurse` stands for the recursive call `a.buildDeps(d, set)`, whose error
return the Go code discards (line 436) while keeping the set mutations. -/
def buildDepsLoop (a : App)
    (recurse : List String → List String → Option (List String × Option Err)) :
    List String → List String → Option (List String × Option Err)
  | [], set => some (set, none)
  | name :: rest, set =>
    if set.contains name then buildDepsLoop a recurse rest set
    else
      let set1 := set ++ [name]
      match a.Module name with
      | Except.error e => some (set1, some e)
      | Except.ok m =>
        match m.require with
        | Except.error e => some (set1, some e)
        | Except.ok d =>
          match recurse d set1 with
          | none => none
          | some (set2, _) => buildDepsLoop a recurse rest set2

/-- Embeds `App.buildDeps` with fuel bounding the depth of nested recursive
calls; `none` means the depth bound was hit (the Go code would still be
recursing deeper). -/
def buildDepsFuel (a : App) : Nat → List String → List String → Option (List String × Option Err)
  | 0 => fun _ _ => none
  | fuel + 1 => buildDepsLoop a (buildDepsFuel a fuel)

/-- Hex digit characters used by Go `fmt %x` and `encoding/json` escapes. -/
def hexDigitChar (n : Nat) : Char :=
  if n < 10 then Char.ofNat (48 + n) else Char.ofNat (87 + n)

/-- Embeds the escaping of one character by Go `encoding/json` when encoding
a string with the default (HTML-escaping) encoder used by `json.Marshal`:
quote, backslash, newline, carriage return and tab get two-character escapes,
other control characters become `\u00XX`, the HTML characters and the line
separators become `\uXXXX`, and everything else is copied verbatim. -/
def jsonEscapeChar (c : Char) : String :=
  if c = Char.ofNat 34 then "\\\""
  else if c = Char.ofNat 92 then "\\\\"
  else if c = Char.ofNat 10 then "\\n"
  else if c = Char.ofNat 13 then "\\r"
  else if c = Char.ofNat 9 then "\\t"
  else if c = Char.ofNat 60 then "\\u003c"
  else if c = Char.ofNat 62 then "\\u003e"
  else if c = Char.ofNat 38 then "\\u0026"
  else if c.toNat < 32 then
    String.mk [Char.ofNat 92, Char.ofNat 117, Char.ofNat 48, Char.ofNat 48,
      hexDigitChar (c.toNat / 16), hexDigitChar (c.toNat % 16)]
  else if c.toNat = 8232 then "\\u2028"
  else if c.toNat = 8233 then "\\u2029"
  else String.mk [c]

/-- Embeds `json.Marshal` applied to a Go string: a double-quoted,
escaped rendering of the characters. -/
def jsonString (s : String) : String :=
  "\"" ++ String.join (s.data.map jsonEscapeChar) ++ "\""

/-- Whitespace predicate of Go `unicode.IsSpace` (the code points with the
Unicode White_Space property), used by `bytes.TrimSpace`. -/
def isSpaceGo (c : Char) : Bool :=
  c.toNat = 32 || c.toNat = 9 || c.toNat = 10 || c.toNat = 11 || c.toNat = 12 ||
  c.toNat = 13 || c.toNat = 133 || c.toNat = 160 || c.toNat = 5760 ||
  (8192 ≤ c.toNat && c.toNat ≤ 8202) || c.toNat = 8232 || c.toNat = 8233 ||
  c.toNat = 8239 || c.toNat = 8287 || c.toNat = 12288

/-- Embeds `bytes.TrimSpace`: drop whitespace from both ends. -/
def trimSpace (s : String) : String :=
  String.mk (((s.data.dropWhile isSpaceGo).reverse.dropWhile isSpaceGo).reverse)

/-- Lexicographic comparison of character lists by code point, which on
valid strings agrees with Go's byte-wise string comparison. -/
def charListLe : List Char → List Char → Bool
  | [], _ => true
  | _ :: _, [] => false
  | a :: as, b :: bs =>
    if a.toNat < b.toNat then true
    else if b.toNat < a.toNat then false
    else charListLe as bs

/-- Go string ordering as a proposition. -/
def strLeP (a b : String) : Prop := charListLe a.data b.data = true

instance : DecidableRel strLeP := fun a b =>
  if h : charListLe a.data b.data = true then Decidable.isTrue h else Decidable.isFalse h

/-- Embeds `sort.Strings`: lexicographic sort of the collected names. -/
def sortStrings (l : List String) : List String :=
  l.insertionSort strLeP

/-- Embeds the optional transform application in `App.content`
(part_001 lines 401-405). -/
def applyTransform (a : App) (c : String) : Except Err String :=
  match a.transform with
  | none => Except.ok c
  | some t => t c

/-- Embeds the per-name body of the emission loop of `App.content`
(part_001 lines 392-418): resolve the module, fetch and transform its
content, and render `define(<json name>,<json trimmed content>);\n`. -/
def stmtOf (a : App) (name : String) : Except Err String := do
  let m ← a.Module name
  let c ← m.content
  let c ← applyTransform a c
  pure ("define(" ++ jsonString m.name ++ "," ++ jsonString (trimSpace c) ++ ");\n")

/-- Emission loop of `App.content` over the sorted names, accumulating the
output buffer and aborting on the first error. -/
def emitLoop (a : App) : String → List String → Except Err String
  | acc, [] => Except.ok acc
  | acc, name :: rest =>
    match stmtOf a name with
    | Except.error e => Except.error e
    | Except.ok s => emitLoop a (acc ++ s) rest

/-- Embeds the emission half of `App.content`: sort the collected names and
run the emission loop on an empty buffer. -/
def emit (a : App) (set : List String) : Except Err String :=
  emitLoop a "" (sortStrings set)

/-- Concatenation of a list of strings. -/
def concatStr (l : List String) : String := l.foldr (fun s t => s ++ t) ""

/-- Embeds `App.content` (part_001 lines 377-420): build the dependency
closure from the roots, abort on the error the top-level `buildDeps` call
reports, then emit the sorted `define` statements. -/
def contentFuel (a : App) (fuel : Nat) (roots : List String) : Option (Except Err String) :=
  match buildDepsFuel a fuel roots [] with
  | none => none
  | some (_, some e) => some (Except.error e)
  | some (set, none) => some (emit a set)

/-- Length of the hex hash used in bundle URLs (`hashLen`, part_001 line 23). -/
def hashLen : Nat := 7

/-- Bundle file extension (`ext`, part_001 line 24). -/
def ext : String := ".js"

/-- Byte length of the extension (`extLen`, part_001 line 25). -/
def extLen : Nat := 3

/-- Helper for the `..` case of Go `path.Clean`: with the output buffer kept
in reversed order, drop one character, then keep dropping while the buffer is
longer than `dd` and the character just dropped was not a slash (this is the
`out.w--` loop of the Go source). -/
def popSegment : List Char → Nat → List Char
  | [], _ => []
  | c :: rest, dd => if rest.length > dd && c ≠ '/' then popSegment rest dd else rest

/-- Main loop of Go `path.Clean`, processing the remaining input characters
with the output buffer in reversed order and `dd` the index up to which `..`
may not erase (the `dotdot` variable of the Go source).  The four cases
mirror the Go switch: a slash is skipped; a `.` segment is skipped; a `..`
segment pops the previous output segment (or, when not rooted, appends a
literal `..`); any other segment is copied, preceded by a separator unless
the buffer is at its initial position.  Every step consumes at least one
input character, so the structural fuel argument, seeded with the input
length plus one, never runs out. -/
def cleanLoop (rooted : Bool) : Nat → List Char → List Char → Nat → List Char
  | 0, _, outRev, _ => outRev
  | _ + 1, [], outRev, _ => outRev
  | fuel + 1, c :: r, outRev, dd =>
    if c = '/' then cleanLoop rooted fuel r outRev dd
    else if c = '.' && (r.isEmpty || r.head? == some '/') then
      cleanLoop rooted fuel r outRev dd
    else if c = '.' && r.head? == some '.' && (r.tail.isEmpty || r.tail.head? == some '/') then
      if outRev.length > dd then cleanLoop rooted fuel r.tail (popSegment outRev dd) dd
      else if !rooted then
        let out1 := if outRev.length > 0 then '/' :: outRev else outRev
        cleanLoop rooted fuel r.tail ('.' :: '.' :: out1) ('.' :: '.' :: out1).length
      else cleanLoop rooted fuel r.tail outRev dd
    else
      let out1 := if (rooted && outRev.length ≠ 1) || (!rooted && outRev.length ≠ 0)
        then '/' :: outRev else outRev
      cleanLoop rooted fuel (r.dropWhile (fun x => x ≠ '/'))
        ((r.takeWhile (fun x => x ≠ '/')).reverse ++ (c :: out1)) dd

/-- Final step of Go `path.Clean`: an empty buffer cleans to `.`, otherwise
the buffer (kept reversed during the loop) is the result. -/
def pathCleanTail (outRev : List Char) : String :=
  if outRev.isEmpty then "." else String.mk outRev.reverse

/-- Embeds Go `path.Clean`: empty input cleans to `.`; otherwise run the
cleaning loop, seeding the buffer with a slash if the path is rooted, and
return `.` if the buffer came out empty. -/
def pathClean (s : String) : String :=
  if s.data.isEmpty then "."
  else
    pathCleanTail (cleanLoop (s.data.head? == some '/') (s.data.length + 1)
      (if s.data.head? == some '/' then s.data.tail else s.data)
      (if s.data.head? == some '/' then ['/'] else [])
      (if s.data.head? == some '/' then 1 else 0))

/-- Embeds Go `path.Join`: drop leading empty elements, join the rest with
slashes and clean the result; all-empty input yields the empty string. -/
def pathJoin (elems : List String) : String :=
  match elems.dropWhile (fun e => e = "") with
  | [] => ""
  | es => pathClean (String.intercalate "/" es)

/-- Association-list lookup modelling a read of a Go `map[string]string`. -/
def lookupAssoc (l : List (String × String)) (k : String) : Option String :=
  (l.find? (fun p => p.1 == k)).map Prod.snd

/-- Association-list update modelling an assignment to a Go
`map[string]string` (maps are unordered, so only lookups are observable). -/
def setAssoc (l : List (String × String)) (k v : String) : List (String × String) :=
  (k, v) :: l.eraseP (fun p => p.1 == k)

/-- Mutable state touched by `App.ModulesURL`: the `packageURLs` URL cache,
the data held by the memory-backed `ContentStore`, and an instrumentation
counter of how many `ContentStore.Store` calls were made (so that "no second
store write" is observable in the pure model). -/
structure AppState : Type where
  packageURLs : List (String × String)
  storeData : List (String × String)
  storeWrites : Nat
deriving DecidableEq, Repr

/-- Embeds `memoryStore.Store` (part_001 lines 466-469) plus the write
counter: upsert the key and record that a write happened. -/
def storePut (st : AppState) (k v : String) : AppState :=
  ⟨st.packageURLs, setAssoc st.storeData k v, st.storeWrites + 1⟩

/-- Hash key minted by `App.ModulesURL`: the first `hashLen` characters of
the hex digest (the `sha` parameter models `fmt.Sprintf` of the sha256 sum
computed by the external crypto library). -/
def hashOf (sha : String → String) (content : String) : String :=
  String.mk ((sha content).data.take hashLen)

/-- Lower-case hex digits, the alphabet of `fmt %x` output. -/
def isHexLower (c : Char) : Bool :=
  (48 ≤ c.toNat && c.toNat ≤ 57) || (97 ≤ c.toNat && c.toNat ≤ 102)

/-- Miss path of `App.ModulesURL` (part_001 lines 308-328): store the bundle
under its hash (one `ContentStore.Store` call), join the mount path and the
hash filename into the URL, and record the URL in the `packageURLs` cache
under the joined-roots key. -/
def mintURL (sha : String → String) (a : App) (st : AppState) (key content : String) :
    String × AppState :=
  (pathJoin ["/", a.mountPath, hashOf sha content ++ ext],
   { storePut st (hashOf sha content) content with
      packageURLs := setAssoc st.packageURLs key
        (pathJoin ["/", a.mountPath, hashOf sha content ++ ext]) })

/-- Embeds `App.ModulesURL` (part_001 lines 301-329): a cached URL for the
joined name list is returned directly (a missing map entry reads as the
empty string); otherwise the bundle is built (`contentFuel`) and the URL is
minted and cached.  The memory store of the repository never fails, so
`Store` errors do not arise. -/
def modulesURL (sha : String → String) (a : App) (fuel : Nat) (st : AppState)
    (mods : List String) : Option (Except Err (String × AppState)) :=
  if (lookupAssoc st.packageURLs (String.join mods)).getD "" ≠ "" then
    some (Except.ok ((lookupAssoc st.packageURLs (String.join mods)).getD "", st))
  else
    match contentFuel a fuel mods with
    | none => none
    | some (Except.error e) => some (Except.error e)
    | some (Except.ok content) =>
      some (Except.ok (mintURL sha a st (String.join mods) content))

/-- Byte strings of the HTTP layer: Go `[]byte` as a list of byte values. -/
abbrev Bytes := List Nat

/-- UTF-8 encoding of one character, to spell ASCII literals as bytes. -/
def charUtf8 (c : Char) : List Nat :=
  let n := c.toNat
  if n < 128 then [n]
  else if n < 2048 then [192 + n / 64, 128 + n % 64]
  else if n < 65536 then [224 + n / 4096, 128 + (n / 64) % 64, 128 + n % 64]
  else [240 + n / 262144, 128 + (n / 4096) % 64, 128 + (n / 64) % 64, 128 + n % 64]

/-- Byte rendering of a string (Go `[]byte(s)`). -/
def strBytes (s : String) : Bytes := (s.data.map charUtf8).flatten

/-- Embeds Go `path.Base` at byte level: empty path gives `.`; trailing
slashes are stripped; everything up to the last slash is dropped; a path of
only slashes gives `/`.  Working on the reversed bytes, stripping trailing
slashes then cutting at the last slash is dropping the leading slashes and
taking the leading slash-free run (the intermediate list of the Go code is
only ever used reversed, so the double reverse is elided). -/
def pathBase (p : Bytes) : Bytes :=
  if p.isEmpty then strBytes "."
  else if ((p.reverse.dropWhile (fun c => c = 47)).takeWhile (fun c => c ≠ 47)).reverse.isEmpty
    then [47]
  else ((p.reverse.dropWhile (fun c => c = 47)).takeWhile (fun c => c ≠ 47)).reverse

/-- Model of an `http.ResponseWriter`: the status line is sent by the first
`WriteHeader` (later calls are ignored, as in `net/http`); `Write` sends an
implicit 200 first if needed and appends to the body; headers added after
the status line was sent are not transmitted. -/
structure Resp : Type where
  status : Option Nat
  headers : List (String × String)
  body : Bytes
deriving DecidableEq, Repr

/-- Response writer before anything was written. -/
def initResp : Resp := ⟨none, [], []⟩

/-- Models `ResponseWriter.WriteHeader`. -/
def rwWriteHeader (w : Resp) (code : Nat) : Resp :=
  match w.status with
  | some _ => w
  | none => ⟨some code, w.headers, w.body⟩

/-- Models `ResponseWriter.Write`. -/
def rwWrite (w : Resp) (b : Bytes) : Resp :=
  let w1 := rwWriteHeader w 200
  ⟨w1.status, w1.headers, w1.body ++ b⟩

/-- Models `ResponseWriter.Header().Add`. -/
def rwAddHeader (w : Resp) (k v : String) : Resp :=
  match w.status with
  | some _ => w
  | none => ⟨w.status, w.headers ++ [(k, v)], w.body⟩

/-- Embeds the `ByteStore.Get` side of the store as seen by the server: a Go
call returning a byte-slice (or nil) together with an error (or nil); the
two are independent, as the Go interface allows. -/
structure GetStore : Type where
  get : Bytes → Option Bytes × Option String

/-- Serving view of the `App`: the mount path and the content store. -/
structure AppHTTP : Type where
  mountPath : String
  store : GetStore

/-- Second half of `App.ServeHTTP` (part_001 lines 361-375), from the store
call on: the error check writes the 500 response but does not return (the Go
source has no `return` after the 500 branch), then the nil-content check and
the success path run on whatever the store returned. -/
def serveFound (w : Resp) (res : Option Bytes × Option String) : Resp :=
  let w1 := match res.2 with
    | some _ => rwWrite (rwWriteHeader w 500) (strBytes "error retriving package from store\n")
    | none => w
  match res.1 with
  | none => rwWrite (rwWriteHeader w1 404) (strBytes "not found\n")
  | some content =>
    rwWrite (rwWriteHeader (rwAddHeader w1 "Content-Type" "text/javascript") 200) content

/-- Embeds `App.ServeHTTP` (part_001 lines 353-375): reject base filenames
of the wrong length before touching the store, otherwise look up the key
obtained by stripping the extension and serve the outcome. -/
def serveHTTP (a : AppHTTP) (urlPath : Bytes) (w : Resp) : Resp :=
  if (pathBase urlPath).length ≠ hashLen + extLen then
    rwWrite (rwWriteHeader w 404) (strBytes "invalid url\n")
  else
    serveFound w
      (a.store.get ((pathBase urlPath).take ((pathBase urlPath).length - extLen)))

/-- JSON-serializable argument values for `jsh.Call.Args`
(`[]interface\x7b\x7d` holding strings, integers, booleans or null). -/
inductive JVal : Type where
  | jstr (s : String)
  | jint (n : Int)
  | jbool (b : Bool)
  | jnull
deriving DecidableEq, Repr

/-- Decimal rendering of a natural number, with structural fuel (the number
itself bounds the digit count). -/
def natToStrAux : Nat → Nat → String
  | _, 0 => ""
  | n, fuel + 1 =>
    if n < 10 then String.mk [hexDigitChar n]
    else natToStrAux (n / 10) fuel ++ String.mk [hexDigitChar (n % 10)]

/-- Decimal rendering of a natural number. -/
def natToStr (n : Nat) : String := natToStrAux n (n + 1)

/-- Embeds `json.Marshal` on the argument values. -/
def jvalMarshal : JVal → String
  | JVal.jstr s => jsonString s
  | JVal.jint n => if n < 0 then "-" ++ natToStr n.natAbs else natToStr n.toNat
  | JVal.jbool b => if b then "true" else "false"
  | JVal.jnull => "null"

/-- Embeds the `jsh.Call` struct (jsh.go lines 13-17): a module name, a
function name and the argument list, with `none` modelling a nil Go slice
(which `encoding/json` renders as `null`). -/
structure Call : Type where
  module : String
  function : String
  args : Option (List JVal)

/-- Embeds `json.Marshal` of a `jsh.Call` value: the struct fields are
emitted in declaration order under their tag names, which are `name`, `fn`
and `args` (jsh.go lines 14-16). -/
def callMarshal (c : Call) : String :=
  "\x7b\"name\":" ++ jsonString c.module ++ ",\"fn\":" ++ jsonString c.function ++
    ",\"args\":" ++
    (match c.args with
     | none => "null"
     | some l => "[" ++ String.intercalate "," (l.map jvalMarshal) ++ "]") ++ "\x7d"

/-- Embeds the inline-call rendering loop of `AppScripts.HTML` (jsh.go lines
52-61): one `execute(<json call>);` statement per call, concatenated. -/
def renderCalls (calls : List Call) : String :=
  String.join (calls.map (fun c => "execute(" ++ callMarshal c ++ ");"))

/-- Pending or performed call of the client loader runtime. -/
structure JsCall : Type where
  module : String
  fn : String
  args : List JVal
deriving DecidableEq, Repr

/-- State of the client loader runtime: `payloads` and `modules` hold the
keys of the `_payloads` and `_modules` maps of the prelude
(src/require_js.go), with the payload bodies abstracted away; `queue` and
`scheduled` are the pending-call queue and the deferred-flush flag of the
scheduler; `invoked` logs every performed `require(module)[fn](args)` call. -/
structure Loader : Type where
  payloads : List String
  modules : List String
  queue : List JsCall
  scheduled : Bool
  invoked : List JsCall
deriving DecidableEq, Repr

/-- Embeds `key(name)` of the prelude (src/require_js.go line 17). -/
def jsKey (name : String) : String := "_n_" ++ name

/-- Embeds `require(name)` of the prelude (src/require_js.go lines 21-34):
an instantiated module returns at once; otherwise its payload is consumed
(removed, so it cannot be instantiated twice) and the module is recorded as
instantiated; with neither, the call throws. -/
def jsRequire (name : String) (s : Loader) : Except String Loader :=
  let k := jsKey name
  if s.modules.contains k then Except.ok s
  else if s.payloads.contains k then
    Except.ok ⟨s.payloads.erase k, k :: s.modules, s.queue, s.scheduled, s.invoked⟩
  else Except.error ("module " ++ name ++ " not found")

/-- Embeds `define(name, payload)` of the prelude (src/require_js.go lines
36-41): throws when the key is already among the payloads or the modules,
otherwise stores the payload.  Modelled from the spec: setting `scheduled`
(define "stores the payload and schedules a queue flush") belongs to the
scheduler, which src/require_js.go does not contain. -/
def jsDefine (name : String) (s : Loader) : Except String Loader :=
  let k := jsKey name
  if s.payloads.contains k || s.modules.contains k then
    Except.error ("module " ++ name ++ " already defined")
  else Except.ok ⟨k :: s.payloads, s.modules, s.queue, true, s.invoked⟩

/-- Modelled from the spec: `execute(call)` of the loader runtime (spec
section 4.8), absent from src/require_js.go, which only defines `define` and
`require`.  If the target module is already defined or instantiated the call
runs immediately through `require(module)[fn](...args)` (logged in
`invoked`); otherwise the call is re-enqueued and a flush is scheduled. -/
def jsExecute (c : JsCall) (s : Loader) : Loader :=
  let k := jsKey c.module
  if s.payloads.contains k || s.modules.contains k then
    match jsRequire c.module s with
    | Except.ok s1 => ⟨s1.payloads, s1.modules, s1.queue, s1.scheduled, s1.invoked ++ [c]⟩
    | Except.error _ => s
  else ⟨s.payloads, s.modules, s.queue ++ [c], true, s.invoked⟩

/-- Modelled from the spec: one scheduler flush (spec section 4.8), absent
from src/require_js.go.  The pending queue is swapped out for a fresh empty
one and the flush flag cleared, then exactly the captured calls are
processed; a call re-enqueued during processing lands in the new queue. -/
def jsFlush (s : Loader) : Loader :=
  s.queue.foldl (fun st c => jsExecute c st) ⟨s.payloads, s.modules, [], false, s.invoked⟩

/-- Loader state right after the prelude runs. -/
def loaderInit : Loader := ⟨[], [], [], false, []⟩

/-- Embeds `CustomProvider` (commonjs.go lines 64-67): a dynamically filled
name-to-module map. -/
structure CustomProvider : Type where
  modules : List (String × CjsModule)

/-- Embeds `CustomProvider.Module` (commonjs.go lines 239-244): exact
lookup; a missing name yields the error built by `fmt.Errorf`, which is a
plain formatted error value, not the `errModuleNotFound` type. -/
def CustomProvider.Module (p : CustomProvider) (name : String) : Except Err CjsModule :=
  match p.modules.find? (fun q => q.1 == name) with
  | some q => Except.ok q.2
  | none => Except.error (Err.generic ("module " ++ name ++ " was not found"))

/-- Rendered statement of one closure name, defaulting for the error case
(only used under the hypothesis that emission succeeded). -/
def stmtText (a : App) (n : String) : String := ((stmtOf a n).toOption).getD ""

/-- Example app with a dependency cycle: module A requires B and module B
requires A (the providers are interface values, so the requirement lists
are given directly). -/
def appCycle : App :=
  ⟨"r", none, [⟨"A", Except.ok "AAA", Except.ok ["B"]⟩,
    ⟨"B", Except.ok "BBB", Except.ok ["A"]⟩], []⟩

/-- Example app in which module a requires module b, and module b reports an
error from Require while its Content succeeds (the `CjsModule` interface
permits the two calls to fail independently). -/
def appReqFail : App :=
  ⟨"r", none, [⟨"a", Except.ok "AAA", Except.ok ["b"]⟩,
    ⟨"b", Except.ok "bee", Except.error (Err.generic "requirements unavailable")⟩], []⟩

/-- Example app with two literal modules used to evaluate packaging. -/
def appTwo : App :=
  ⟨"r", none, [⟨"b", Except.ok "BB", Except.ok []⟩,
    ⟨"a", Except.ok " AA ", Except.ok ["b"]⟩], []⟩

/-- Example digest function standing in for the sha256 hex digest: a
constant 64-character hex string. -/
def shaConst : String → String := fun _ => String.mk (List.replicate 64 'a')

/-- Example store whose Get always fails. -/
def storeBoom : GetStore := ⟨fun _ => (none, some "disk failure")⟩

/-- Example serving app wired to the always-failing store. -/
def appBoom : AppHTTP := ⟨"r", storeBoom⟩

/-- Example store holding one bundle under the key abcdef0. -/
def storeOne : GetStore :=
  ⟨fun k => if k = strBytes "abcdef0" then (some (strBytes "BUNDLE"), none) else (none, none)⟩

/-- Inline call of the jsh sanity test: module mname, function fname,
arguments 1, true, foo. -/
def testCall : Call :=
  ⟨"mname", "fname", some [JVal.jint 1, JVal.jbool true, JVal.jstr "foo"]⟩

/-- C2: dependency resolution over the cyclic graph terminates: resolving
the root set containing only A against the provider where A requires B and
B requires A reaches a finished state with visited set exactly A, B for
every recursion-depth budget of at least three, i.e. the recursion never
needs more depth (a name already in the visited set is never re-processed),
and the visited set is exactly the two modules of the cycle. -/
theorem resolve_cycle_terminates (f : Nat) :
    buildDepsFuel appCycle (f + 3) ["A"] [] = some (["A", "B"], none) := rfl

/-- C3 (evaluation at the failing input): for the app in which a requires b
and the Require of b fails while its Content succeeds, App.content returns a
complete two-statement bundle and no error, because buildDeps discards the
error of its recursive call (part_001 line 436); the claim says the whole
bundle operation must return an error when a requirement fetch fails. -/
theorem content_ignores_nested_require_error :
    contentFuel appReqFail 3 ["a"]
      = some (Except.ok "define(\"a\",\"AAA\");\ndefine(\"b\",\"bee\");\n") := rfl

/-- C4 (evaluation at the failing input): the miss error of
CustomProvider.Module is the generic formatted error, and IsNotFound is
false on it, contrary to the claim (and to TestCustomProviderModuleNotFound)
that a miss is distinguishable as NotFound. -/
theorem customProvider_miss_generic :
    (CustomProvider.mk []).Module "foo"
        = Except.error (Err.generic "module foo was not found")
    ∧ IsNotFound (Err.generic "module foo was not found") = false :=
  ⟨rfl, rfl⟩

/-- C6 (evaluation at the failing input): on a store error for a well-formed
bundle path the server sends the 500 status and the fixed error line, but,
lacking a return after the 500 branch (part_001 line 366), falls through and
appends the not-found body to the response as well. -/
theorem serve_store_error_appends_not_found :
    serveHTTP appBoom (strBytes "/r/abcdef0.js") initResp
      = ⟨some 500, [], strBytes "error retriving package from store\nnot found\n"⟩ := rfl

/-- C8 (evaluation at the failing input): the inline statement rendered for
the sanity-test call keys the module under name, not module, because the
json tag on the Call.Module field (jsh.go line 14) is name; the claim and
TestSanity in jsh_test.go expect the module key. -/
theorem renderCalls_name_key :
    renderCalls [testCall]
      = "execute(\x7b\"name\":\"mname\",\"fn\":\"fname\",\"args\":[1,true,\"foo\"]\x7d);" := rfl

/-- C9: the loader runtime executes a call immediately when its target
module is already defined or instantiated (logging the
require(module)[fn](args) invocation and leaving the queue alone), otherwise
re-enqueues the call and schedules a deferred flush; consequently an execute
issued before the target module's define still invokes the function exactly
once a flush runs after the define. -/
theorem execute_defer_semantics (c : JsCall) :
    (∀ s : Loader,
        (s.payloads.contains (jsKey c.module) || s.modules.contains (jsKey c.module)) = true →
        (jsExecute c s).invoked = s.invoked ++ [c] ∧ (jsExecute c s).queue = s.queue)
    ∧ (∀ s : Loader,
        (s.payloads.contains (jsKey c.module) || s.modules.contains (jsKey c.module)) = false →
        (jsExecute c s).invoked = s.invoked ∧ (jsExecute c s).queue = s.queue ++ [c]
          ∧ (jsExecute c s).scheduled = true)
    ∧ (∀ s2 : Loader, jsDefine c.module (jsExecute c loaderInit) = Except.ok s2 →
        (jsFlush s2).invoked = [c]
          ∧ (jsFlush s2).modules.contains (jsKey c.module) = true) := by
  refine ⟨?_, ?_, ?_⟩
  · intro s h
    rw [Bool.or_eq_true] at h
    by_cases hm : jsKey c.module ∈ s.modules
    · simp [jsExecute, jsRequire, hm]
    · have hp : jsKey c.module ∈ s.payloads := by
        rcases h with h1 | h1
        · exact List.elem_iff.mp h1
        · exact absurd (List.elem_iff.mp h1) hm
      simp [jsExecute, jsRequire, hm, hp]
  · intro s h
    rw [Bool.or_eq_false_iff] at h
    have hp : jsKey c.module ∉ s.payloads := by
      intro hx
      have h1 := h.1
      rw [Bool.eq_false_iff] at h1
      exact h1 (List.elem_iff.mpr hx)
    have hm : jsKey c.module ∉ s.modules := by
      intro hx
      have h2 := h.2
      rw [Bool.eq_false_iff] at h2
      exact h2 (List.elem_iff.mpr hx)
    simp [jsExecute, hp, hm]
  · intro s2 h
    have h1 : jsExecute c loaderInit = Loader.mk [] [] [c] true [] := by
      unfold jsExecute loaderInit
      simp [List.contains]
    rw [h1] at h
    have h2 : s2 = Loader.mk [jsKey c.module] [] [c] true [] := by
      unfold jsDefine at h
      simp only [List.contains, List.elem_nil, Bool.or_self, Bool.false_eq_true,
        if_false, ite_false] at h
      exact (Except.ok.inj h).symm
    subst h2
    unfold jsFlush jsExecute jsRequire
    simp [List.contains]

/-- Witness for C9: the deferred-call scenario at the concrete call m.f(). -/
theorem execute_defer_semantics_witness :
    (jsDefine "m" (jsExecute (JsCall.mk "m" "f" []) loaderInit)
        = Except.ok (Loader.mk [jsKey "m"] [] [JsCall.mk "m" "f" []] true []))
    ∧ ((jsFlush (Loader.mk [jsKey "m"] [] [JsCall.mk "m" "f" []] true [])).invoked
          = [JsCall.mk "m" "f" []]
        ∧ (jsFlush (Loader.mk [jsKey "m"] [] [JsCall.mk "m" "f" []] true [])).modules.contains
            (jsKey "m") = true) :=
  ⟨rfl, (execute_defer_semantics (JsCall.mk "m" "f" [])).2.2 _ rfl⟩

/-- C5: the bundle server responds 404 invalid url to any path whose base
filename has the wrong length, with a response that is one fixed byte string
whatever the store holds; with the right length, an absent key gives 404
not found and a present key gives 200 text/javascript with exactly the
stored bytes. -/
theorem serve_contract (a : AppHTTP) (p : Bytes) :
    ((pathBase p).length ≠ hashLen + extLen →
      serveHTTP a p initResp = ⟨some 404, [], strBytes "invalid url\n"⟩)
    ∧ ((pathBase p).length = hashLen + extLen →
        a.store.get ((pathBase p).take hashLen) = (none, none) →
        serveHTTP a p initResp = ⟨some 404, [], strBytes "not found\n"⟩)
    ∧ (∀ content : Bytes, (pathBase p).length = hashLen + extLen →
        a.store.get ((pathBase p).take hashLen) = (some content, none) →
        serveHTTP a p initResp
          = ⟨some 200, [("Content-Type", "text/javascript")], content⟩) := by
  refine ⟨?_, ?_, ?_⟩
  · intro h
    unfold serveHTTP
    rw [if_pos h]
    rfl
  · intro h hget
    unfold serveHTTP
    rw [if_neg (not_not_intro h), h]
    have e1 : hashLen + extLen - extLen = hashLen := rfl
    rw [e1, hget]
    rfl
  · intro content h hget
    unfold serveHTTP
    rw [if_neg (not_not_intro h), h]
    have e1 : hashLen + extLen - extLen = hashLen := rfl
    rw [e1, hget]
    rfl

/-- Witness for C5: a wrong-length request and a stored-bundle request
against the one-entry store. -/
theorem serve_contract_witness :
    ((pathBase (strBytes "/r/short.js")).length ≠ hashLen + extLen
      ∧ serveHTTP ⟨"r", storeOne⟩ (strBytes "/r/short.js") initResp
          = ⟨some 404, [], strBytes "invalid url\n"⟩)
    ∧ ((pathBase (strBytes "/r/abcdef0.js")).length = hashLen + extLen
      ∧ storeOne.get ((pathBase (strBytes "/r/abcdef0.js")).take hashLen)
          = (some (strBytes "BUNDLE"), none)
      ∧ serveHTTP ⟨"r", storeOne⟩ (strBytes "/r/abcdef0.js") initResp
          = ⟨some 200, [("Content-Type", "text/javascript")], strBytes "BUNDLE"⟩) :=
  ⟨⟨by decide, (serve_contract ⟨"r", storeOne⟩ (strBytes "/r/short.js")).1 (by decide)⟩,
   ⟨by decide, by decide,
    (serve_contract ⟨"r", storeOne⟩ (strBytes "/r/abcdef0.js")).2.2 (strBytes "BUNDLE")
      (by decide) (by decide)⟩⟩

/-- Segments without a slash are taken whole up to the next slash. -/
theorem takeWhileNoSlash (l r : Bytes) (h : ∀ x ∈ l, x ≠ 47) :
    (l ++ 47 :: r).takeWhile (fun c => c ≠ 47) = l := by
  induction l with
  | nil => simp [List.takeWhile]
  | cons x xs ih =>
    have hx : x ≠ 47 := h x (by simp)
    have ihx := ih (fun y hy => h y (by simp [hy]))
    simp_all [List.takeWhile_cons]

/-- The base filename of a path is its final slash-free segment. -/
theorem pathBase_last_segment (dir name : Bytes) (hne : name ≠ [])
    (hns : ∀ x ∈ name, x ≠ 47) :
    pathBase (dir ++ 47 :: name) = name := by
  obtain ⟨y, ys, hy⟩ : ∃ y ys, name.reverse = y :: ys := by
    cases hrev : name.reverse with
    | nil => exact absurd (by simpa using hrev) hne
    | cons y ys => exact ⟨y, ys, rfl⟩
  have hymem : y ∈ name := by
    have : y ∈ name.reverse := by rw [hy]; simp
    simpa using this
  have hyne : y ≠ 47 := hns y hymem
  have hr : (dir ++ 47 :: name).reverse = name.reverse ++ 47 :: dir.reverse := by
    rw [List.reverse_append, List.reverse_cons, List.append_assoc]
    rfl
  have hdrop : (name.reverse ++ 47 :: dir.reverse).dropWhile (fun c => c = 47)
      = name.reverse ++ 47 :: dir.reverse := by
    rw [hy, List.cons_append]
    exact List.dropWhile_cons_of_neg (by simp [hyne])
  have htake : (name.reverse ++ 47 :: dir.reverse).takeWhile (fun c => c ≠ 47)
      = name.reverse :=
    takeWhileNoSlash name.reverse dir.reverse (fun x hx => hns x (by simpa using hx))
  unfold pathBase
  rw [if_neg (by simp), hr, hdrop, htake, List.reverse_reverse]
  rw [if_neg (by simp [hne])]

/-- C10: the server dispatches on the base filename only: a stored hash is
served with 200 and the stored bytes for every directory prefix of the
request path, and the response never depends on the mount path. -/
theorem serve_ignores_directory (dir hashKey content : Bytes) (g : GetStore) (mp1 mp2 : String)
    (hlen : hashKey.length = hashLen) (hns : ∀ x ∈ hashKey, x ≠ 47)
    (hget : g.get hashKey = (some content, none)) :
    serveHTTP ⟨mp1, g⟩ (dir ++ 47 :: (hashKey ++ strBytes ext)) initResp
      = ⟨some 200, [("Content-Type", "text/javascript")], content⟩
    ∧ ∀ (p : Bytes) (w : Resp), serveHTTP ⟨mp1, g⟩ p w = serveHTTP ⟨mp2, g⟩ p w := by
  constructor
  · have hname : pathBase (dir ++ 47 :: (hashKey ++ strBytes ext)) = hashKey ++ strBytes ext := by
      apply pathBase_last_segment
      · intro hx
        have hlc := congrArg List.length hx
        have he : (strBytes ext).length = 3 := rfl
        simp [List.length_append, hlen, he, hashLen] at hlc
      · intro x hx
        rcases List.mem_append.mp hx with h1 | h1
        · exact hns x h1
        · have he : strBytes ext = [46, 106, 115] := rfl
          rw [he] at h1
          simp at h1
          rcases h1 with h1 | h1 | h1 <;> omega
    have hlen2 : (hashKey ++ strBytes ext).length = hashLen + extLen := by
      have he : (strBytes ext).length = 3 := rfl
      simp [List.length_append, hlen, he]
      rfl
    unfold serveHTTP
    rw [hname, hlen2, if_neg (not_not_intro rfl)]
    have e1 : hashLen + extLen - extLen = hashLen := rfl
    rw [e1, ← hlen, List.take_left, hget]
    rfl
  · intro p w
    rfl

/-- Witness for C10: the stored hash abcdef0 is served from under the
directory /x/y, which is not the mount path. -/
theorem serve_ignores_directory_witness :
    ((strBytes "abcdef0").length = hashLen
      ∧ (∀ x ∈ strBytes "abcdef0", x ≠ 47)
      ∧ storeOne.get (strBytes "abcdef0") = (some (strBytes "BUNDLE"), none))
    ∧ serveHTTP ⟨"r", storeOne⟩ (strBytes "/x/y" ++ 47 :: (strBytes "abcdef0" ++ strBytes ext))
        initResp = ⟨some 200, [("Content-Type", "text/javascript")], strBytes "BUNDLE"⟩ :=
  ⟨⟨by decide, by decide, by decide⟩,
   (serve_ignores_directory (strBytes "/x/y") (strBytes "abcdef0") (strBytes "BUNDLE")
      storeOne "r" "other" (by decide) (by decide) (by decide)).1⟩

/-- Characters with equal code points are equal. -/
theorem charToNatInj (a b : Char) (h : a.toNat = b.toNat) : a = b := by
  apply Char.ext
  apply UInt32.ext
  simpa [Char.toNat] using h

/-- The string comparison is total. -/
theorem charListLe_total : ∀ a b : List Char, charListLe a b = true ∨ charListLe b a = true := by
  intro a
  induction a with
  | nil => intro b; left; rfl
  | cons x xs ih =>
    intro b
    cases b with
    | nil => right; rfl
    | cons y ys =>
      by_cases hxy : x.toNat < y.toNat
      · left; simp [charListLe, hxy]
      · by_cases hyx : y.toNat < x.toNat
        · right; simp [charListLe, hyx]
        · rcases ih ys with h | h
          · left; simp [charListLe, hxy, hyx, h]
          · right; simp [charListLe, hxy, hyx, h]

/-- The string comparison is transitive. -/
theorem charListLe_trans : ∀ a b c : List Char,
    charListLe a b = true → charListLe b c = true → charListLe a c = true := by
  intro a
  induction a with
  | nil => intro b c h1 h2; rfl
  | cons x xs ih =>
    intro b c h1 h2
    cases b with
    | nil => simp [charListLe] at h1
    | cons y ys =>
      cases c with
      | nil => simp [charListLe] at h2
      | cons z zs =>
        simp only [charListLe] at h1 h2 ⊢
        by_cases hxy : x.toNat < y.toNat
        · by_cases hyz : y.toNat < z.toNat
          · have hxz : x.toNat < z.toNat := by omega
            simp [hxz]
          · by_cases hzy : z.toNat < y.toNat
            · simp [hyz, hzy] at h2
            · have hxz : x.toNat < z.toNat := by omega
              simp [hxz]
        · by_cases hyx : y.toNat < x.toNat
          · simp [hxy, hyx] at h1
          · by_cases hyz : y.toNat < z.toNat
            · have hxz : x.toNat < z.toNat := by omega
              simp [hxz]
            · by_cases hzy : z.toNat < y.toNat
              · simp [hyz, hzy] at h2
              · have hxz : ¬x.toNat < z.toNat := by omega
                have hzx : ¬z.toNat < x.toNat := by omega
                simp only [hxy, hyx, if_false, ite_false] at h1
                simp only [hyz, hzy, if_false, ite_false] at h2
                simp [hxz, hzx]
                exact ih ys zs h1 h2

/-- The string comparison is antisymmetric. -/
theorem charListLe_antisymm : ∀ a b : List Char,
    charListLe a b = true → charListLe b a = true → a = b := by
  intro a
  induction a with
  | nil =>
    intro b h1 h2
    cases b with
    | nil => rfl
    | cons y ys => simp [charListLe] at h2
  | cons x xs ih =>
    intro b h1 h2
    cases b with
    | nil => simp [charListLe] at h1
    | cons y ys =>
      simp only [charListLe] at h1 h2
      by_cases hxy : x.toNat < y.toNat
      · have hyx : ¬y.toNat < x.toNat := by omega
        simp [hxy, hyx] at h2
      · by_cases hyx : y.toNat < x.toNat
        · simp [hxy, hyx] at h1
        · have hxyeq : x = y := charToNatInj x y (by omega)
          simp only [hxy, hyx, if_false, ite_false] at h1 h2
          rw [hxyeq, ih ys h1 h2]

instance : IsTotal String strLeP := ⟨fun a b => charListLe_total a.data b.data⟩

instance : IsTrans String strLeP := ⟨fun a b c => charListLe_trans a.data b.data c.data⟩

instance : IsAntisymm String strLeP :=
  ⟨fun a b h1 h2 => String.ext (charListLe_antisymm a.data b.data h1 h2)⟩

/-- Sorting permutes the input. -/
theorem sortStrings_perm (l : List String) : (sortStrings l).Perm l :=
  List.perm_insertionSort strLeP l

/-- Sorting sorts. -/
theorem sortStrings_sorted (l : List String) : List.Sorted strLeP (sortStrings l) :=
  List.sorted_insertionSort strLeP l

/-- Lists equal as multisets sort to the same list. -/
theorem sortStrings_eq_of_perm (l1 l2 : List String) (h : l1.Perm l2) :
    sortStrings l1 = sortStrings l2 :=
  List.eq_of_perm_of_sorted ((sortStrings_perm l1).trans (h.trans (sortStrings_perm l2).symm))
    (sortStrings_sorted l1) (sortStrings_sorted l2)

/-- When the emission loop succeeds, its output is the accumulator followed
by the rendered statement of every processed name, and every processed name
rendered without error. -/
theorem emitLoop_ok (a : App) : ∀ (names : List String) (acc res : String),
    emitLoop a acc names = Except.ok res →
    res = acc ++ concatStr (names.map (stmtText a))
      ∧ ∀ n ∈ names, ∃ y, stmtOf a n = Except.ok y := by
  intro names
  induction names with
  | nil =>
    intro acc res h
    simp only [emitLoop] at h
    obtain rfl := (Except.ok.inj h)
    refine ⟨?_, by simp⟩
    have : concatStr ([] : List String) = "" := rfl
    rw [List.map_nil, this]
    exact (String.append_empty acc).symm
  | cons n ns ih =>
    intro acc res h
    simp only [emitLoop] at h
    cases hs : stmtOf a n with
    | error e => rw [hs] at h; cases h
    | ok y =>
      rw [hs] at h
      obtain ⟨h1, h2⟩ := ih (acc ++ y) res h
      refine ⟨?_, ?_⟩
      · rw [h1]
        have hst : stmtText a n = y := by simp [stmtText, hs, Except.toOption]
        have hcs : concatStr ((n :: ns).map (stmtText a))
            = y ++ concatStr (ns.map (stmtText a)) := by
          rw [List.map_cons]
          show stmtText a n ++ concatStr (ns.map (stmtText a)) = _
          rw [hst]
        rw [hcs, String.append_assoc]
      · intro m hm
        rcases List.mem_cons.mp hm with hm1 | hm1
        · exact hm1 ▸ ⟨y, hs⟩
        · exact h2 m hm1

/-- The visited set built by the resolver never holds a name twice: a name
already in the set is skipped, and a new name is appended exactly once. -/
theorem buildDeps_nodup (a : App) : ∀ (fuel : Nat) (req set : List String)
    (res : List String × Option Err),
    buildDepsFuel a fuel req set = some res → set.Nodup → res.1.Nodup := by
  intro fuel
  induction fuel with
  | zero => intro req set res h; simp [buildDepsFuel] at h
  | succ f ihf =>
    have inner : ∀ (req set : List String) (res : List String × Option Err),
        buildDepsLoop a (buildDepsFuel a f) req set = some res → set.Nodup → res.1.Nodup := by
      intro req
      induction req with
      | nil =>
        intro set res h hn
        simp only [buildDepsLoop] at h
        obtain rfl := (Option.some.inj h)
        exact hn
      | cons name rest ihr =>
        intro set res h hn
        simp only [buildDepsLoop] at h
        by_cases hc : set.contains name = true
        · rw [if_pos hc] at h
          exact ihr set res h hn
        · rw [if_neg hc] at h
          have hmem : name ∉ set := fun hm => hc (List.elem_iff.mpr hm)
          have hset1 : (set ++ [name]).Nodup := by
            simp [List.nodup_append, hn, hmem]
          split at h
          · obtain rfl := (Option.some.inj h)
            exact hset1
          · split at h
            · obtain rfl := (Option.some.inj h)
              exact hset1
            · split at h
              · cases h
              · rename_i set2 snd hrec
                exact ihr set2 res h (ihf _ (set ++ [name]) (set2, snd) hrec hset1)
    intro req set res h hn
    exact inner req set res (by simpa [buildDepsFuel] using h) hn

/-- C1: for a fixed provider state, the bundle built from the resolved
closure is exactly one define statement per closure name (each of the shape
rendered by stmtOf, i.e. define(<json name>,<json trimmed content>);
followed by a newline), emitted in lexicographically sorted name order; the
emitted bytes depend only on the closure as a set, so packaging the same
closure twice, whatever traversal order produced it, yields byte-identical
bundles. -/
theorem bundle_sorted_deterministic (a : App) (fuel : Nat) (roots visited : List String)
    (h : buildDepsFuel a fuel roots [] = some (visited, none)) :
    contentFuel a fuel roots = some (emit a visited)
    ∧ visited.Nodup
    ∧ (∀ other : List String, visited.Perm other → emit a other = emit a visited)
    ∧ (sortStrings visited).Perm visited
    ∧ List.Sorted strLeP (sortStrings visited)
    ∧ (∀ s, emit a visited = Except.ok s →
        s = concatStr ((sortStrings visited).map (stmtText a))
        ∧ ∀ n ∈ sortStrings visited, ∃ y, stmtOf a n = Except.ok y) := by
  refine ⟨?_, ?_, ?_, ?_, ?_, ?_⟩
  · simp [contentFuel, h]
  · exact buildDeps_nodup a fuel roots [] (visited, none) h List.nodup_nil
  · intro other hp
    unfold emit
    rw [sortStrings_eq_of_perm other visited hp.symm]
  · exact sortStrings_perm visited
  · exact sortStrings_sorted visited
  · intro s hs
    obtain ⟨h1, h2⟩ := emitLoop_ok a (sortStrings visited) "" s hs
    refine ⟨?_, h2⟩
    rw [h1]
    have : ("" : String) ++ concatStr ((sortStrings visited).map (stmtText a))
        = concatStr ((sortStrings visited).map (stmtText a)) := by
      apply String.ext
      simp
    rw [this]

/-- Witness for C1: the two-module app, roots [a], closure a then b. -/
theorem bundle_sorted_deterministic_witness :
    (buildDepsFuel appTwo 3 ["a"] [] = some ((["a", "b"] : List String), none))
    ∧ contentFuel appTwo 3 ["a"] = some (emit appTwo ["a", "b"])
    ∧ emit appTwo ["b", "a"] = emit appTwo ["a", "b"]
    ∧ emit appTwo ["a", "b"] = Except.ok "define(\"a\",\"AA\");\ndefine(\"b\",\"BB\");\n" :=
  ⟨rfl, (bundle_sorted_deterministic appTwo 3 ["a"] ["a", "b"] rfl).1,
   (bundle_sorted_deterministic appTwo 3 ["a"] ["a", "b"] rfl).2.2.1 ["b", "a"]
     (List.Perm.swap "b" "a" []),
   rfl⟩

/-- The cleaning tail never returns the empty string. -/
theorem pathCleanTail_ne_empty (l : List Char) : pathCleanTail l ≠ "" := by
  unfold pathCleanTail
  split
  · decide
  · rename_i h
    intro hEq
    have hd := congrArg String.data hEq
    simp at hd
    simp [hd] at h

/-- Cleaning never returns the empty string. -/
theorem pathClean_ne_empty (s : String) : pathClean s ≠ "" := by
  unfold pathClean
  split
  · decide
  · exact pathCleanTail_ne_empty _

/-- Joining a rooted path never returns the empty string. -/
theorem pathJoin_slash_ne_empty (mp x : String) : pathJoin ["/", mp, x] ≠ "" := by
  unfold pathJoin
  rw [List.dropWhile_cons_of_neg (by simp)]
  exact pathClean_ne_empty _

/-- Reading back the key just assigned in an association map. -/
theorem lookupAssoc_set (l : List (String × String)) (k v : String) :
    lookupAssoc (setAssoc l k v) k = some v := by
  simp [lookupAssoc, setAssoc, List.find?_cons_of_pos]

/-- C7: minting a URL twice for the identical root-name list returns the
identical URL with the state unchanged by the second call — in particular no
second store write happens (the first call performed exactly one) and the
cached URL is returned directly; the URL has the form produced by joining
the mount path with a hash filename of hashLen lower-case hex characters
plus the extension. -/
theorem modulesURL_cache (sha : String → String) (a : App) (fuel : Nat) (st0 : AppState)
    (mods : List String) (url : String) (st1 : AppState)
    (hsha : ∀ s : String, (sha s).length = 64 ∧ ∀ c ∈ (sha s).data, isHexLower c = true)
    (hmiss : lookupAssoc st0.packageURLs (String.join mods) = none)
    (h : modulesURL sha a fuel st0 mods = some (Except.ok (url, st1))) :
    modulesURL sha a fuel st1 mods = some (Except.ok (url, st1))
    ∧ st1.storeWrites = st0.storeWrites + 1
    ∧ ∃ hs : String, hs.length = hashLen ∧ (∀ c ∈ hs.data, isHexLower c = true)
        ∧ url = pathJoin ["/", a.mountPath, hs ++ ext] := by
  unfold modulesURL at h
  rw [hmiss] at h
  rw [if_neg (by simp)] at h
  cases hc : contentFuel a fuel mods with
  | none => rw [hc] at h; cases h
  | some r =>
    cases r with
    | error e =>
      rw [hc] at h
      simp at h
    | ok content =>
      rw [hc] at h
      have hpair : mintURL sha a st0 (String.join mods) content = (url, st1) :=
        Except.ok.inj (Option.some.inj h)
      have hurl : url = pathJoin ["/", a.mountPath, hashOf sha content ++ ext] := by
        have hfst := congrArg Prod.fst hpair
        simpa [mintURL] using hfst.symm
      have hst1 : st1 = { storePut st0 (hashOf sha content) content with
          packageURLs := setAssoc st0.packageURLs (String.join mods)
            (pathJoin ["/", a.mountPath, hashOf sha content ++ ext]) } := by
        have hsnd := congrArg Prod.snd hpair
        simpa [mintURL] using hsnd.symm
      refine ⟨?_, ?_, ?_⟩
      · unfold modulesURL
        have hlook : lookupAssoc st1.packageURLs (String.join mods)
            = some (pathJoin ["/", a.mountPath, hashOf sha content ++ ext]) := by
          rw [hst1]
          exact lookupAssoc_set _ _ _
        rw [hlook]
        rw [if_pos (by simpa using
          pathJoin_slash_ne_empty a.mountPath (hashOf sha content ++ ext))]
        simp [hurl]
      · rw [hst1]
        simp [storePut]
      · refine ⟨hashOf sha content, ?_, ?_, hurl⟩
        · have h64 := (hsha content).1
          have hlen : (hashOf sha content).length = ((sha content).data.take hashLen).length :=
            rfl
          have hdat : (sha content).data.length = 64 := h64
          rw [hlen, List.length_take, hdat]
          decide
        · intro c hc2
          exact (hsha content).2 c (List.mem_of_mem_take hc2)

/-- The constant digest is 64 lower-case hex characters. -/
theorem shaConst_spec (s : String) :
    (shaConst s).length = 64 ∧ ∀ c ∈ (shaConst s).data, isHexLower c = true := by
  refine ⟨rfl, ?_⟩
  intro c hc
  have hrep : (shaConst s).data = List.replicate 64 'a' := rfl
  rw [hrep] at hc
  rw [List.eq_of_mem_replicate hc]
  decide

/-- Witness for C7: minting for roots [a] of the two-module app with the
constant digest; the second call returns the first URL and state unchanged. -/
theorem modulesURL_cache_witness :
    (lookupAssoc (AppState.mk [] [] 0).packageURLs (String.join ["a"]) = none
      ∧ modulesURL shaConst appTwo 3 (AppState.mk [] [] 0) ["a"]
          = some (Except.ok ("/r/aaaaaaa.js",
              AppState.mk [("a", "/r/aaaaaaa.js")]
                [("aaaaaaa", "define(\"a\",\"AA\");\ndefine(\"b\",\"BB\");\n")] 1)))
    ∧ modulesURL shaConst appTwo 3
        (AppState.mk [("a", "/r/aaaaaaa.js")]
          [("aaaaaaa", "define(\"a\",\"AA\");\ndefine(\"b\",\"BB\");\n")] 1) ["a"]
        = some (Except.ok ("/r/aaaaaaa.js",
            AppState.mk [("a", "/r/aaaaaaa.js")]
              [("aaaaaaa", "define(\"a\",\"AA\");\ndefine(\"b\",\"BB\");\n")] 1))
    ∧ (AppState.mk [("a", "/r/aaaaaaa.js")]
        [("aaaaaaa", "define(\"a\",\"AA\");\ndefine(\"b\",\"BB\");\n")] 1).storeWrites
        = (AppState.mk [] [] 0).storeWrites + 1 :=
  ⟨⟨rfl, rfl⟩,
   (modulesURL_cache shaConst appTwo 3 (AppState.mk [] [] 0) ["a"] "/r/aaaaaaa.js"
      (AppState.mk [("a", "/r/aaaaaaa.js")]
        [("aaaaaaa", "define(\"a\",\"AA\");\ndefine(\"b\",\"BB\");\n")] 1)
      shaConst_spec rfl rfl).1,
   (modulesURL_cache shaConst appTwo 3 (AppState.mk [] [] 0) ["a"] "/r/aaaaaaa.js"
      (AppState.mk [("a", "/r/aaaaaaa.js")]
        [("aaaaaaa", "define(\"a\",\"AA\");\ndefine(\"b\",\"BB\");\n")] 1)
      shaConst_spec rfl rfl).2.1⟩
